import Mathlib

/-
Verification of the agent engine of `philschmid/ia-agents`
(packages/agents-core and packages/agent), as a shallow embedding in Lean.

Source files embedded:
- packages/agents-core/src/agent-loop.ts   (executeTools, agentLoop, runLoop, aggregateUsage)
- packages/agents-core model layer          (callModel)
- packages/agent/src/hooks/runner.ts       (HookRunner.emit)
- packages/agent/src/utils/wrap-tools.ts   (wrapToolsWithHooks)
- packages/agent/src/session.ts            (AgentSession._streamInternal)
- packages/agents-core/src/utils/event-stream.ts   (EventStream)

Machine integers of the source are token counters; they are modelled as Nat.
Asynchronous execution in the source is strictly sequential cooperative
scheduling, so it is embedded as plain sequential state passing.  Throwing
code becomes `Except String`.
-/

-- ============================================================================
-- Basic data model (packages/agents-core/src/types.ts)
-- ============================================================================

/-- Opaque JSON argument objects (`Record<string, unknown>`), modelled as
association lists of string key / string value pairs. -/
abbrev Args := List (String × String)

/-- JavaScript object-spread merge of two argument objects,
`\x7b...a, ...b\x7d`: keys of `a` in order with values overridden by `b`
where shared, then the keys of `b` not present in `a`. -/
def mergeArgs (a b : Args) : Args :=
  (a.map (fun kv => (kv.1, ((b.lookup kv.1).getD kv.2)))) ++
    b.filter (fun kv => (a.lookup kv.1).isNone)

/-- Turn role (`'user' | 'model'`). -/
inductive Role where
  | user
  | model
deriving Repr, DecidableEq

/-- Thought summary content (`ThoughtSummary`): text or image. -/
inductive ThoughtSummary where
  | text (text : String)
  | image (data : String)
deriving Repr, DecidableEq

/-- Type `FunctionCallContent` as used by the loop: optional id, name, arguments. -/
structure FunctionCallContent where
  id : Option String
  name : Option String
  arguments : Option Args
deriving Repr, DecidableEq

/-- Type `FunctionResultContent` built by `executeTools`. -/
structure FunctionResultContent where
  call_id : String
  name : String
  result : String
  is_error : Bool
deriving Repr, DecidableEq

/-- A content block of a Turn. `raw` stands for accumulator blocks whose
type string is none of the recognized kinds (the source keeps them as-is). -/
inductive Content where
  | text (text : String)
  | thought (summary : List (Option ThoughtSummary)) (signature : Option String)
  | functionCall (fc : FunctionCallContent)
  | functionResult (fr : FunctionResultContent)
  | raw (btype : String)
deriving Repr, DecidableEq

/-- One role-tagged message of ordered content blocks. -/
structure Turn where
  role : Role
  content : List Content
deriving Repr, DecidableEq

/-- Token usage counters (`Usage`); every field optional in the source. -/
structure Usage where
  total_input_tokens : Option Nat := none
  total_output_tokens : Option Nat := none
  total_tokens : Option Nat := none
  total_thought_tokens : Option Nat := none
deriving Repr, DecidableEq

/-- Result returned by a tool's execute function (`AgentToolResult`);
`isError` is optional in the source and read with `|| false`. -/
structure AgentToolResult where
  result : String
  isError : Option Bool := none
deriving Repr, DecidableEq

/-- Instrumentation record of one hook-point emission made during a (wrapped)
tool execution: the gate point `beforeToolExecute` or the post-execution
point `afterToolExecute`. -/
inductive HookEv where
  | gate (toolName : String) (toolCallId : String) (args : Args)
  | after (toolName : String) (toolCallId : String) (res : AgentToolResult)
deriving Repr, DecidableEq

instance : DecidableEq (Except String AgentToolResult) := fun a b =>
  match a, b with
  | .error x, .error y =>
    if h : x = y then .isTrue (by rw [h]) else .isFalse (by simp [h])
  | .ok x, .ok y =>
    if h : x = y then .isTrue (by rw [h]) else .isFalse (by simp [h])
  | .error _, .ok _ => .isFalse (by simp)
  | .ok _, .error _ => .isFalse (by simp)

/-- Everything one call of a tool's `execute` produces: the progress updates
it reported through `onProgress` (zero or more), the trace of hook-point
emissions it performed (empty for unwrapped tools), and its outcome —
`Except.error` models a thrown exception. -/
structure ToolRun where
  progress : List AgentToolResult := []
  hookTrace : List HookEv := []
  outcome : Except String AgentToolResult
deriving Repr, DecidableEq

/-- Tool definition (`AgentTool`). -/
structure MTool where
  name : String
  label : String
  description : String
  parameters : String
  execute : String → Args → ToolRun

/-- Semantic agent events (`AgentEvent`).  `agentEnd.interactionId` is an
Option because the source casts a possibly-undefined id with `as string`. -/
inductive AgentEvent where
  | agentStart
  | agentEnd (interactions : List Turn) (interactionId : Option String) (usage : Usage)
  | interactionStart (interactionId : String)
  | interactionEnd (turn : Turn)
  | textStart (index : Nat)
  | textDelta (index : Nat) (delta : String)
  | textEnd (index : Nat) (text : String)
  | thoughtSummary (summary : ThoughtSummary)
  | toolStart (id : String) (name : String) (arguments : Args)
  | toolDelta (id : String) (name : String) (chunk : AgentToolResult)
  | toolEnd (id : String) (name : String) (result : String) (isError : Bool)
deriving Repr, DecidableEq

-- ============================================================================
-- aggregateUsage (agent-loop.ts, lines 251-259)
-- ============================================================================

/-- One field of `aggregateUsage`: `if (source.f) target.f = (target.f || 0) + source.f`.
A source value of 0 is falsy in JavaScript, so it leaves the target field
untouched (including leaving it absent). -/
def aggregateField (target source : Option Nat) : Option Nat :=
  match source with
  | none => target
  | some 0 => target
  | some n => some (target.getD 0 + n)

/-- Function `aggregateUsage(target, source)` of agent-loop.ts: per-field addition,
missing fields treated as zero, fields never overwritten. -/
def aggregateUsage (target source : Usage) : Usage where
  total_input_tokens := aggregateField target.total_input_tokens source.total_input_tokens
  total_output_tokens := aggregateField target.total_output_tokens source.total_output_tokens
  total_tokens := aggregateField target.total_tokens source.total_tokens
  total_thought_tokens := aggregateField target.total_thought_tokens source.total_thought_tokens

-- ============================================================================
-- Event channel: EventStream (agents-core/src/utils/event-stream.ts)
-- ============================================================================

/-- The producer-observable state of `EventStream<T, R>`: the FIFO `queue`
of accepted events, the `done` flag, and the one-shot final-result promise,
modelled by `answer` (none while pending, and a JavaScript promise keeps its
first resolution).  The consumer-side `waiting` list only schedules
delivery — a push hands the event to a waiting consumer instead of the
queue, in the same order — and never affects which value `result()`
resolves to, so it is abstracted away here. -/
structure EventStream (ε ρ : Type) where
  queue : List ε := []
  done : Bool := false
  answer : Option ρ := none

/-- Method `push(event)`: returns immediately when the stream is already
done; an event matching the `isComplete` predicate marks the stream done
but explicitly does NOT resolve the result ("The result should be resolved
by end() with the correct value"); the event itself is still accepted and
delivered. -/
def pushEv (isTerminal : ε → Bool) (c : EventStream ε ρ) (e : ε) : EventStream ε ρ :=
  if c.done then c
  else { c with queue := c.queue ++ [e], done := isTerminal e }

/-- Method `end(result?)`: marks the stream done and, when the optional
argument is defined, resolves the final-result promise with it — a promise
resolves only once, so an already-resolved result is unchanged. -/
def endEv (c : EventStream ε ρ) (r : Option ρ) : EventStream ε ρ :=
  { c with done := true, answer := match c.answer with | some a => some a | none => r }

/-- A producer-side operation on the stream: push an event, or end with an
optional final result. -/
inductive ChanOp (ε ρ : Type) where
  | push (e : ε)
  | close (r : Option ρ)

/-- Apply one stream operation. -/
def applyOp (isTerminal : ε → Bool) (c : EventStream ε ρ) : ChanOp ε ρ → EventStream ε ρ
  | .push e => pushEv isTerminal c e
  | .close r => endEv c r

/-- Run a whole sequence of stream operations from the fresh stream. -/
def runOps (isTerminal : ε → Bool) (ops : List (ChanOp ε ρ)) : EventStream ε ρ :=
  ops.foldl (applyOp isTerminal) {}

/-- The value handed to the first `end` operation that carries one, if
any (an `end()` without a value — `close none` — resolves nothing). -/
def firstClose : List (ChanOp ε ρ) → Option ρ
  | [] => none
  | .push _ :: rest => firstClose rest
  | .close none :: rest => firstClose rest
  | .close (some r) :: _ => some r

-- ============================================================================
-- Theorems: C3 (the C9 pieces come later with the session model)
-- ============================================================================

lemma applyOp_answer_some (isTerminal : ε → Bool) (c : EventStream ε ρ) (op : ChanOp ε ρ)
    (a : ρ) (h : c.answer = some a) : (applyOp isTerminal c op).answer = some a := by
  cases op with
  | push e =>
    simp only [applyOp, pushEv]
    split <;> simp [h]
  | close r => simp [applyOp, endEv, h]

lemma foldl_answer_some (isTerminal : ε → Bool) (ops : List (ChanOp ε ρ))
    (c : EventStream ε ρ) (a : ρ) (h : c.answer = some a) :
    (ops.foldl (applyOp isTerminal) c).answer = some a := by
  induction ops generalizing c with
  | nil => simpa using h
  | cons op rest ih => exact ih _ (applyOp_answer_some isTerminal c op a h)

lemma foldl_answer_none (isTerminal : ε → Bool) (ops : List (ChanOp ε ρ))
    (c : EventStream ε ρ) (h : c.answer = none) :
    (ops.foldl (applyOp isTerminal) c).answer = firstClose ops := by
  induction ops generalizing c with
  | nil => simpa [firstClose] using h
  | cons op rest ih =>
    cases op with
    | push e =>
      simp only [List.foldl_cons, firstClose]
      apply ih
      simp only [applyOp, pushEv]
      split <;> simp [h]
    | close r =>
      cases r with
      | none =>
        simp only [List.foldl_cons, firstClose]
        apply ih
        simp [applyOp, endEv, h]
      | some v =>
        simp only [List.foldl_cons, firstClose]
        apply foldl_answer_some
        simp [applyOp, endEv, h]

/-- C3: for every sequence of push and end operations on the Event Channel,
the result resolves to exactly the value passed to the first value-carrying
`end`, and never to the payload of a pushed event that matched the
is-terminal predicate, no matter how many terminal-looking events were
pushed before `end` was called. -/
theorem eventChannel_result_is_first_close (ε ρ : Type) (isTerminal : ε → Bool)
    (ops : List (ChanOp ε ρ)) :
    (runOps isTerminal ops).answer = firstClose ops := by
  exact foldl_answer_none isTerminal ops {} rfl

-- ============================================================================
-- Tool Executor: executeTools (agent-loop.ts, lines 29-97)
-- ============================================================================

/-- JavaScript template-literal rendering of a possibly-undefined string
(an absent name renders as the string "undefined"). -/
def optShow : Option String → String
  | some s => s
  | none => "undefined"

/-- Resolve a tool by exact name match: `tools.find((t) => t.name === fc.name)`.
An absent call name never matches (string === undefined is false). -/
def findTool (tools : List MTool) (name : Option String) : Option MTool :=
  tools.find? (fun t => name = some t.name)

/-- The synthesized "not found" result for a call naming an unknown tool. -/
def notFoundResult (fc : FunctionCallContent) : AgentToolResult :=
  { result := "Tool " ++ optShow fc.name ++ " not found", isError := some true }

/-- The error-flagged result a thrown exception is converted to. -/
def caughtErrorResult (message : String) : AgentToolResult :=
  { result := "Error: " ++ message, isError := some true }

/-- The `AgentToolResult` produced for one function call: unknown name gives
the synthesized "not found" error without invoking anything; a thrown
exception is caught and converted to an error-flagged result. -/
def execOneResult (tools : List MTool) (fc : FunctionCallContent) : AgentToolResult :=
  match findTool tools fc.name with
  | none => notFoundResult fc
  | some t =>
    match (t.execute (fc.id.getD "") (fc.arguments.getD [])).outcome with
    | .ok r => r
    | .error message => caughtErrorResult message

/-- The `FunctionResultContent` record built from one call's tool result. -/
def toFunctionResult (fc : FunctionCallContent) (tr : AgentToolResult) :
    FunctionResultContent where
  call_id := fc.id.getD ""
  name := fc.name.getD ""
  result := tr.result
  is_error := tr.isError.getD false

/-- The events pushed while executing one call: `tool.start`, any progress
`tool.delta` events of the invoked tool, then `tool.end`. -/
def execOneEvents (tools : List MTool) (fc : FunctionCallContent) : List AgentEvent :=
  let toolCallId := fc.id.getD ""
  let toolName := fc.name.getD ""
  let deltas : List AgentEvent :=
    match findTool tools fc.name with
    | none => []
    | some t =>
      (t.execute toolCallId (fc.arguments.getD [])).progress.map
        (fun p => .toolDelta toolCallId toolName p)
  let tr := execOneResult tools fc
  [.toolStart toolCallId toolName (fc.arguments.getD [])] ++ deltas ++
    [.toolEnd toolCallId toolName tr.result (tr.isError.getD false)]

/-- Function `executeTools` of agent-loop.ts: strictly sequential dispatch of a batch
of function calls, returning the pushed events and the result batch. -/
def executeTools (toolCalls : List FunctionCallContent) (tools : List MTool) :
    List AgentEvent × List FunctionResultContent :=
  match toolCalls with
  | [] => ([], [])
  | fc :: rest =>
    let evs := execOneEvents tools fc
    let fr := toFunctionResult fc (execOneResult tools fc)
    let (revs, rres) := executeTools rest tools
    (evs ++ revs, fr :: rres)

-- ============================================================================
-- Theorem: C1
-- ============================================================================

lemma executeTools_results_eq_map (toolCalls : List FunctionCallContent)
    (tools : List MTool) :
    (executeTools toolCalls tools).2 =
      toolCalls.map (fun fc => toFunctionResult fc (execOneResult tools fc)) := by
  induction toolCalls with
  | nil => rfl
  | cons fc rest ih => simp [executeTools, ih]

/-- C1: the Tool Executor returns exactly N function-result records for N
input calls, in the same order (result i is built from call i); a call
naming an unknown tool yields the synthesized error-flagged "not found"
result, independent of every tool's execute function; a thrown exception is
converted to an error-flagged result instead of propagating (the executor
is a total function into result lists). -/
theorem executeTools_batch_spec (toolCalls : List FunctionCallContent)
    (tools : List MTool) :
    (executeTools toolCalls tools).2.length = toolCalls.length ∧
    (executeTools toolCalls tools).2 =
      toolCalls.map (fun fc => toFunctionResult fc (execOneResult tools fc)) ∧
    (∀ fc : FunctionCallContent, findTool tools fc.name = none →
      execOneResult tools fc = notFoundResult fc ∧
      (notFoundResult fc).isError = some true) ∧
    (∀ (fc : FunctionCallContent) (t : MTool) (message : String),
      findTool tools fc.name = some t →
      (t.execute (fc.id.getD "") (fc.arguments.getD [])).outcome = .error message →
      execOneResult tools fc = caughtErrorResult message ∧
      (caughtErrorResult message).isError = some true) := by
  refine ⟨?_, executeTools_results_eq_map toolCalls tools, ?_, ?_⟩
  · rw [executeTools_results_eq_map]; simp
  · intro fc h
    simp [execOneResult, h, notFoundResult]
  · intro fc t message ht hout
    simp [execOneResult, ht, hout, caughtErrorResult]

/-- A throwing tool used by the C1 witness. -/
def throwingTool : MTool where
  name := "boom"
  label := "boom"
  description := "always throws"
  parameters := "{}"
  execute := fun _ _ => { outcome := .error "kaboom" }

/-- A well-behaved tool used by witnesses. -/
def okTool : MTool where
  name := "echo"
  label := "echo"
  description := "returns ok"
  parameters := "{}"
  execute := fun _ _ => { outcome := .ok { result := "ok" } }

/-- Concrete batch for the C1 witness: one ok call, one unknown name, one
throwing tool, plus the empty batch through the length clause. -/
def witnessCalls : List FunctionCallContent :=
  [ { id := some "c1", name := some "echo", arguments := some [] },
    { id := some "c2", name := some "ghost", arguments := none },
    { id := none, name := some "boom", arguments := some [("x", "1")] } ]

theorem executeTools_batch_spec_witness :
    (executeTools witnessCalls [okTool, throwingTool]).2.length = 3 ∧
    execOneResult [okTool, throwingTool]
        { id := some "c2", name := some "ghost", arguments := none } =
      notFoundResult { id := some "c2", name := some "ghost", arguments := none } ∧
    execOneResult [okTool, throwingTool]
        { id := none, name := some "boom", arguments := some [("x", "1")] } =
      caughtErrorResult "kaboom" := by
  have h := executeTools_batch_spec witnessCalls [okTool, throwingTool]
  refine ⟨h.1, ?_, ?_⟩
  · exact (h.2.2.1 { id := some "c2", name := some "ghost", arguments := none }
      (by rfl)).1
  · exact (h.2.2.2 { id := none, name := some "boom", arguments := some [("x", "1")] }
      throwingTool "kaboom" (by rfl) (by rfl)).1

-- ============================================================================
-- Hook Dispatcher gate policy: HookRunner.emit('beforeToolExecute')
-- (packages/agent/src/hooks/runner.ts, lines 75-98)
-- ============================================================================

/-- Type `BeforeToolExecuteResult`: decision of one gate handler. -/
structure GateResult where
  allow : Bool
  reason : Option String := none
  arguments : Option Args := none
deriving Repr, DecidableEq

/-- Type `BeforeToolExecuteEvent`: the gate event payload. -/
structure GateEvent where
  toolName : String
  toolCallId : String
  arguments : Args
deriving Repr, DecidableEq

/-- Type `AfterToolExecuteResult`: optional replacement result. -/
structure AfterResult where
  result : Option AgentToolResult := none
deriving Repr, DecidableEq

/-- Type `AfterToolExecuteEvent`: the post-execution event payload. -/
structure AfterEvent where
  toolName : String
  toolCallId : String
  result : AgentToolResult
deriving Repr, DecidableEq

/-- The gate dispatch loop of `HookRunner.emit('beforeToolExecute')`, run
over the values returned by the handlers in registration order (`none` is a
handler that returned undefined).  The first result with a false `allow` is
returned as-is; otherwise argument overrides accumulate by object spread and
the final decision is an approval carrying them. -/
def gateRunAux (merged : Option Args) : List (Option GateResult) → GateResult
  | [] => { allow := true, arguments := merged }
  | none :: rest => gateRunAux merged rest
  | some r :: rest =>
    if r.allow = false then r
    else
      gateRunAux
        (match r.arguments with
         | some a => some (mergeArgs (merged.getD []) a)
         | none => merged) rest

/-- Gate dispatch from the initial (absent) argument accumulator; with zero
handlers this is the implicit approval of the zero-handler early return. -/
def gateRun (results : List (Option GateResult)) : GateResult :=
  gateRunAux none results

/-- How many handlers the gate dispatch invokes: all of them up to and
including the first denying one. -/
def gateInvoked : List (Option GateResult) → Nat
  | [] => 0
  | none :: rest => 1 + gateInvoked rest
  | some r :: rest => if r.allow = false then 1 else 1 + gateInvoked rest

/-- Whether a handler's returned value is a denial (`result && !result.allow`). -/
def gateDenies : Option GateResult → Bool
  | none => false
  | some r => !r.allow

-- ============================================================================
-- Theorems: C5
-- ============================================================================

/-- C5 counterexample: with handlers returning
allow+argument-override, then deny("R"), then allow, the dispatch returns
the denial exactly as the second handler produced it — the prior handler's
argument-override field is dropped, not merged into the final decision as
the claim states. -/
theorem gate_denial_drops_prior_argument_overrides :
    gateRun
        [some { allow := true, arguments := some [("a", "1")] },
         some { allow := false, reason := some "R" },
         some { allow := true }] =
      { allow := false, reason := some "R", arguments := none } ∧
    gateRun
        [some { allow := true, arguments := some [("a", "1")] },
         some { allow := false, reason := some "R" },
         some { allow := true }] ≠
      { allow := false, reason := some "R", arguments := some [("a", "1")] } ∧
    gateInvoked
        [some { allow := true, arguments := some [("a", "1")] },
         some { allow := false, reason := some "R" },
         some { allow := true }] = 2 := by
  refine ⟨by decide, by decide, by decide⟩

lemma gateRunAux_first_denial (merged : Option Args) (pre : List (Option GateResult))
    (d : GateResult) (post : List (Option GateResult))
    (hpre : ∀ r ∈ pre, gateDenies r = false) (hd : d.allow = false) :
    gateRunAux merged (pre ++ some d :: post) = d := by
  induction pre generalizing merged with
  | nil => simp [gateRunAux, hd]
  | cons r rest ih =>
    have hr : gateDenies r = false := hpre r (by simp)
    have hrest : ∀ x ∈ rest, gateDenies x = false := fun x hx => hpre x (by simp [hx])
    cases r with
    | none => simpa [gateRunAux] using ih merged hrest
    | some g =>
      have hg : g.allow = true := by
        cases hga : g.allow with
        | true => rfl
        | false => simp [gateDenies, hga] at hr
      simp only [List.cons_append, gateRunAux, hg]
      exact ih _ hrest

lemma gateInvoked_first_denial (pre : List (Option GateResult)) (d : GateResult)
    (post : List (Option GateResult))
    (hpre : ∀ r ∈ pre, gateDenies r = false) (hd : d.allow = false) :
    gateInvoked (pre ++ some d :: post) = pre.length + 1 := by
  induction pre with
  | nil => simp [gateInvoked, hd]
  | cons r rest ih =>
    have hr : gateDenies r = false := hpre r (by simp)
    have hrest : ∀ x ∈ rest, gateDenies x = false := fun x hx => hpre x (by simp [hx])
    cases r with
    | none =>
      have h2 := ih hrest
      simp only [List.cons_append, List.length_cons]
      show 1 + gateInvoked (rest ++ some d :: post) = rest.length + 1 + 1
      omega
    | some g =>
      have hg : g.allow = true := by
        cases hga : g.allow with
        | true => rfl
        | false => simp [gateDenies, hga] at hr
      have h2 := ih hrest
      simp only [List.cons_append, List.length_cons]
      show (if g.allow = false then 1 else 1 + gateInvoked (rest ++ some d :: post)) =
        rest.length + 1 + 1
      rw [if_neg (by simp [hg])]
      omega

lemma gateRunAux_all_allow (merged : Option Args) (rs : List (Option GateResult))
    (h : ∀ r ∈ rs, gateDenies r = false) : (gateRunAux merged rs).allow = true := by
  induction rs generalizing merged with
  | nil => rfl
  | cons r rest ih =>
    have hr : gateDenies r = false := h r (by simp)
    have hrest : ∀ x ∈ rest, gateDenies x = false := fun x hx => h x (by simp [hx])
    cases r with
    | none => simpa [gateRunAux] using ih _ hrest
    | some g =>
      have hg : g.allow = true := by
        cases hga : g.allow with
        | true => rfl
        | false => simp [gateDenies, hga] at hr
      simp only [gateRunAux, hg]
      rw [if_neg (by simp [hg])]
      exact ih _ hrest

/-- C5 amended: gate handlers run in registration order and the first denial
short-circuits dispatch — exactly the handlers up to and including the
denying one are invoked — and that denial is returned exactly as the denying
handler produced it (prior argument overrides are NOT merged into a denial);
when no handler denies, the final decision is an approval, and with zero
handlers the result is the implicit approval with true `allow` and no reason
or argument fields. -/
theorem gate_short_circuit_spec (pre : List (Option GateResult)) (d : GateResult)
    (post : List (Option GateResult)) (rs : List (Option GateResult))
    (hpre : ∀ r ∈ pre, gateDenies r = false) (hd : d.allow = false)
    (hrs : ∀ r ∈ rs, gateDenies r = false) :
    gateRun (pre ++ some d :: post) = d ∧
    gateInvoked (pre ++ some d :: post) = pre.length + 1 ∧
    (gateRun rs).allow = true ∧
    gateRun [] = { allow := true, reason := none, arguments := none } := by
  exact ⟨gateRunAux_first_denial none pre d post hpre hd,
    gateInvoked_first_denial pre d post hpre hd,
    gateRunAux_all_allow none rs hrs, rfl⟩

theorem gate_short_circuit_spec_witness :
    gateRun
        [some { allow := true, arguments := some [("a", "1")] },
         some { allow := false, reason := some "R" },
         some { allow := true }] =
      { allow := false, reason := some "R" } ∧
    gateInvoked
        [some { allow := true, arguments := some [("a", "1")] },
         some { allow := false, reason := some "R" },
         some { allow := true }] = 1 + 1 ∧
    (gateRun [some { allow := true }, none]).allow = true ∧
    gateRun [] = { allow := true, reason := none, arguments := none } := by
  have h := gate_short_circuit_spec
    [some { allow := true, arguments := some [("a", "1")] }]
    { allow := false, reason := some "R" }
    [some { allow := true }]
    [some { allow := true }, none]
    (by decide) (by decide) (by decide)
  simpa using h

-- ============================================================================
-- Tool Hook Wrapper: wrapToolsWithHooks (packages/agent/src/utils/wrap-tools.ts)
-- ============================================================================

/-- JavaScript `a || b` on an optional string: the default is used when the
value is absent or the empty string (falsy). -/
def jsOr (o : Option String) (b : String) : String :=
  match o with
  | some s => if s = "" then b else s
  | none => b

/-- The merge-policy dispatch of `HookRunner.emit('afterToolExecute')`:
shallow object merge of the handler results, so the last handler that
supplies a replacement result wins. -/
def afterRun (results : List (Option AfterResult)) : AfterResult :=
  results.foldl
    (fun acc o =>
      match o with
      | none => acc
      | some r =>
        match r.result with
        | some x => { result := some x }
        | none => acc)
    {}

/-- A `HookRunner` as the Tool Hook Wrapper sees it: the ordered handler
chains of the two tool extension points. -/
structure HooksModel where
  gateHandlers : List (GateEvent → Option GateResult) := []
  afterHandlers : List (AfterEvent → Option AfterResult) := []

/-- Emission `hooks.emit('beforeToolExecute', ev)`. -/
def emitGate (hooks : HooksModel) (ev : GateEvent) : GateResult :=
  gateRun (hooks.gateHandlers.map (fun h => h ev))

/-- Emission `hooks.emit('afterToolExecute', ev)`. -/
def emitAfter (hooks : HooksModel) (ev : AfterEvent) : AfterResult :=
  afterRun (hooks.afterHandlers.map (fun h => h ev))

/-- Wrap one tool (`wrapToolsWithHooks` body): the wrapped execute emits the
gate point, returns an error-flagged "Blocked" result on denial without
invoking the real tool, otherwise invokes the real tool with possibly
overridden arguments, catches its exceptions, emits the post-execution
point, and returns any replacement result.  The hook emissions performed
are recorded in the `hookTrace` of the produced `ToolRun`. -/
def wrapTool (hooks : HooksModel) (t : MTool) : MTool :=
  { t with
    execute := fun toolCallId args =>
      let gev : GateEvent := { toolName := t.name, toolCallId := toolCallId, arguments := args }
      let approval := emitGate hooks gev
      if approval.allow = false then
        { progress := [],
          hookTrace := [.gate t.name toolCallId args],
          outcome := .ok
            { result := "Blocked: " ++ jsOr approval.reason "Tool execution blocked by hook",
              isError := some true } }
      else
        let effectiveArgs := approval.arguments.getD args
        let inner := t.execute toolCallId effectiveArgs
        let innerResult : AgentToolResult :=
          match inner.outcome with
          | .ok r => r
          | .error message => { result := "Error: " ++ message, isError := some true }
        let aev : AfterEvent := { toolName := t.name, toolCallId := toolCallId, result := innerResult }
        let modified := emitAfter hooks aev
        { progress := inner.progress,
          hookTrace := .gate t.name toolCallId args ::
            (inner.hookTrace ++ [.after t.name toolCallId innerResult]),
          outcome := .ok (modified.result.getD innerResult) } }

/-- Function `wrapToolsWithHooks(tools, hooks)`. -/
def wrapToolsWithHooks (tools : List MTool) (hooks : HooksModel) : List MTool :=
  tools.map (wrapTool hooks)

/-- Number of gate-point emissions in a hook trace. -/
def countGate (trace : List HookEv) : Nat :=
  (trace.filter (fun e => match e with | .gate _ _ _ => true | _ => false)).length

/-- Number of post-execution-point emissions in a hook trace. -/
def countAfter (trace : List HookEv) : Nat :=
  (trace.filter (fun e => match e with | .after _ _ _ => true | _ => false)).length

-- ============================================================================
-- Theorems: C8
-- ============================================================================

/-- An empty hook runner, for the C8 counterexample. -/
def noHooks : HooksModel := {}

/-- C8 counterexample: wrapping an already-wrapped tool set is not
behaviourally identical — with a plain tool and an empty hook runner, one
invocation of the singly-wrapped tool emits the gate and post-execution
points once each, while the doubly-wrapped tool emits each twice. -/
theorem wrapTools_not_idempotent :
    countGate (((wrapToolsWithHooks (wrapToolsWithHooks [okTool] noHooks) noHooks).headD
        okTool).execute "id-1" []).hookTrace = 2 ∧
    countAfter (((wrapToolsWithHooks (wrapToolsWithHooks [okTool] noHooks) noHooks).headD
        okTool).execute "id-1" []).hookTrace = 2 ∧
    countGate (((wrapToolsWithHooks [okTool] noHooks).headD
        okTool).execute "id-1" []).hookTrace = 1 ∧
    countAfter (((wrapToolsWithHooks [okTool] noHooks).headD
        okTool).execute "id-1" []).hookTrace = 1 ∧
    (2 : Nat) ≠ 1 := by
  refine ⟨by decide, by decide, by decide, by decide, by decide⟩

/-- C8 amended: `wrapToolsWithHooks` preserves every non-behavioral field of
every tool (name, label, description, parameter schema) unchanged, and for a
tool whose own execute performs no hook emissions, one invocation of the
wrapped tool emits the gate point exactly once and the post-execution point
at most once (never when the gate denies); but wrapping is NOT idempotent:
each wrap layer adds its own gate emission, so a doubly-wrapped tool fires
the gate twice per invocation (see the counterexample). -/
theorem wrapTools_preserves_fields (tools : List MTool) (hooks : HooksModel)
    (t : MTool) (toolCallId : String) (args : Args)
    (hplain : ∀ (cid : String) (a : Args), (t.execute cid a).hookTrace = []) :
    (wrapToolsWithHooks tools hooks).map MTool.name = tools.map MTool.name ∧
    (wrapToolsWithHooks tools hooks).map MTool.label = tools.map MTool.label ∧
    (wrapToolsWithHooks tools hooks).map MTool.description = tools.map MTool.description ∧
    (wrapToolsWithHooks tools hooks).map MTool.parameters = tools.map MTool.parameters ∧
    countGate (((wrapTool hooks t).execute toolCallId args).hookTrace) = 1 ∧
    countAfter (((wrapTool hooks t).execute toolCallId args).hookTrace) ≤ 1 := by
  refine ⟨?_, ?_, ?_, ?_, ?_, ?_⟩
  · simp [wrapToolsWithHooks, wrapTool, Function.comp]
  · simp [wrapToolsWithHooks, wrapTool, Function.comp]
  · simp [wrapToolsWithHooks, wrapTool, Function.comp]
  · simp [wrapToolsWithHooks, wrapTool, Function.comp]
  · simp only [wrapTool]
    split
    · simp [countGate]
    · simp [countGate, hplain, List.filter]
  · simp only [wrapTool]
    split
    · simp [countAfter]
    · simp [countAfter, hplain, List.filter]

theorem wrapTools_preserves_fields_witness :
    (wrapToolsWithHooks [okTool, throwingTool] noHooks).map MTool.name =
      [okTool, throwingTool].map MTool.name ∧
    countGate (((wrapTool noHooks okTool).execute "id-1" []).hookTrace) = 1 := by
  have h := wrapTools_preserves_fields [okTool, throwingTool] noHooks okTool "id-1" []
    (fun _ _ => rfl)
  exact ⟨h.1, h.2.2.2.2.1⟩

-- ============================================================================
-- Model Adapter: callModel (agents-core model layer)
-- ============================================================================

/-- ASCII whitespace, for the JavaScript regex class backslash-s. -/
def isWS (c : Char) : Bool :=
  c = ' ' || c = '\t' || c = '\n' || c = '\r'

/-- After an opening pair of asterisks, consume one-or-more non-asterisk
characters followed by a closing pair of asterisks; the remainder on
success. -/
def takeBold (cs : List Char) : Option (List Char) :=
  let nonstar := cs.takeWhile (fun c => c ≠ '*')
  if nonstar.isEmpty then none
  else
    match cs.drop nonstar.length with
    | '*' :: '*' :: r => some r
    | _ => none

/-- Global regex replace of bold-marked segments by the empty string
(the thought-summary cleanup's first step), fuel-indexed scan. -/
def stripBoldAux : Nat → List Char → List Char
  | 0, cs => cs
  | _ + 1, [] => []
  | fuel + 1, '*' :: '*' :: rest =>
    (match takeBold rest with
     | some r => stripBoldAux fuel r
     | none => '*' :: stripBoldAux fuel ('*' :: rest))
  | fuel + 1, c :: rest => c :: stripBoldAux fuel rest

/-- Global regex replace of whitespace runs by a single space (the
thought-summary cleanup's second step), fuel-indexed scan. -/
def collapseWSAux : Nat → List Char → List Char
  | 0, cs => cs
  | _ + 1, [] => []
  | fuel + 1, c :: rest =>
    if isWS c then ' ' :: collapseWSAux fuel (rest.dropWhile isWS)
    else c :: collapseWSAux fuel rest

/-- The per-fragment thought-summary text cleanup of callModel: remove bold
headings, collapse whitespace, trim. -/
def cleanThoughtText (s : String) : String :=
  let cs := s.toList
  let cs := stripBoldAux cs.length cs
  let cs := collapseWSAux cs.length cs
  let cs := ((cs.dropWhile isWS).reverse.dropWhile isWS).reverse
  String.mk cs

/-- Cleanup applied to a thought-summary delta's content: text content is
cleaned, any other content passes through unchanged. -/
def cleanThought : Option ThoughtSummary → Option ThoughtSummary
  | some (.text s) => some (.text (cleanThoughtText s))
  | other => other

/-- One provider content delta, sub-tagged like the SDK events. -/
inductive ProviderDelta where
  | text (text : String)
  | thoughtSummary (content : Option ThoughtSummary)
  | thoughtSignature (signature : String)
  | functionCall (name : Option String) (id : Option String) (arguments : Option Args)
deriving Repr, DecidableEq

/-- Provider wire events consumed by callModel. -/
inductive ProviderEvent where
  | interStart (id : Option String)
  | interComplete (id : Option String) (usage : Option Usage)
  | contentStart (index : Option Nat) (ctype : Option String)
  | contentDelta (index : Option Nat) (delta : Option ProviderDelta)
  | contentStop (index : Option Nat)
  | errorEv (message : Option String)
deriving Repr, DecidableEq

/-- A content-block accumulator (the loose per-index object of callModel). -/
structure Block where
  btype : Option String := none
  text : String := ""
  summary : Option (List (Option ThoughtSummary)) := none
  signature : Option String := none
  name : Option String := none
  id : Option String := none
  arguments : Option Args := none
deriving Repr, DecidableEq

/-- JavaScript `Map.set`: replace in place when the key exists (first-seen
insertion order is kept), append otherwise. -/
def setBlock : List (Nat × Block) → Nat → Block → List (Nat × Block)
  | [], i, b => [(i, b)]
  | (j, old) :: rest, i, b =>
    if i = j then (j, b) :: rest else (j, old) :: setBlock rest i b

/-- JavaScript `Map.get`. -/
def getBlock (m : List (Nat × Block)) (i : Nat) : Option Block :=
  m.lookup i

/-- The mutable state of one callModel invocation. -/
structure MState where
  interactionId : String
  usage : Usage := {}
  blocks : List (Nat × Block) := []
  ended : List Nat := []
deriving Repr, DecidableEq

/-- Process one provider event: next state, pushed semantic events, and the
message of a thrown error (for `event_type === 'error'`). -/
def modelStep (st : MState) : ProviderEvent → MState × List AgentEvent × Option String
  | .interStart id =>
    let newId := jsOr id st.interactionId
    ({ st with interactionId := newId }, [.interactionStart newId], none)
  | .interComplete id usg =>
    let newId := jsOr id st.interactionId
    let newUsage := match usg with | some u => u | none => st.usage
    ({ st with interactionId := newId, usage := newUsage }, [], none)
  | .contentStart index ctype =>
    let i := index.getD 0
    ({ st with blocks := setBlock st.blocks i { btype := ctype } },
     if ctype = some "text" then [.textStart i] else [], none)
  | .contentDelta index delta =>
    let i := index.getD 0
    let block := (getBlock st.blocks i).getD {}
    match delta with
    | none => ({ st with blocks := setBlock st.blocks i block }, [], none)
    | some (.text s) =>
      let b := { block with btype := some "text", text := block.text ++ s }
      ({ st with blocks := setBlock st.blocks i b }, [.textDelta i s], none)
    | some (.thoughtSummary content) =>
      let cleaned := cleanThought content
      let newSummary := some (block.summary.getD [] ++ [cleaned])
      let b := { block with btype := some "thought", summary := newSummary }
      ({ st with blocks := setBlock st.blocks i b },
       match cleaned with
       | some c => [AgentEvent.thoughtSummary c]
       | none => [], none)
    | some (.thoughtSignature sig) =>
      let b := { block with btype := some "thought", signature := some sig }
      ({ st with blocks := setBlock st.blocks i b }, [], none)
    | some (.functionCall nm fid fargs) =>
      let b0 := { block with btype := some "function_call" }
      let b1 := match nm with
                | some s => if s = "" then b0 else { b0 with name := some s }
                | none => b0
      let b2 := match fid with
                | some s => if s = "" then b1 else { b1 with id := some s }
                | none => b1
      let b3 := match fargs with
                | some a => { b2 with arguments := some a }
                | none => b2
      ({ st with blocks := setBlock st.blocks i b3 }, [], none)
  | .contentStop index =>
    let i := index.getD 0
    match getBlock st.blocks i with
    | some b =>
      if b.btype = some "text" then
        if i ∈ st.ended then (st, [], none)
        else ({ st with ended := st.ended ++ [i] }, [.textEnd i b.text], none)
      else (st, [], none)
    | none => (st, [], none)
  | .errorEv message =>
    (st, [], some (jsOr message "Unknown error"))

/-- Process the whole provider stream; stops at a thrown error, carrying the
events pushed so far. -/
def runModel (st : MState) : List ProviderEvent → MState × List AgentEvent × Option String
  | [] => (st, [], none)
  | e :: rest =>
    let r := modelStep st e
    match r.2.2 with
    | some m => (r.1, r.2.1, some m)
    | none =>
      let r2 := runModel r.1 rest
      (r2.1, r.2.1 ++ r2.2.1, r2.2.2)

/-- Convert a finished accumulator to a content block. -/
def blockToContent (b : Block) : Content :=
  match b.btype with
  | some "text" => .text b.text
  | some "thought" => .thought (b.summary.getD []) b.signature
  | some "function_call" => .functionCall { id := b.id, name := b.name, arguments := b.arguments }
  | some s => .raw s
  | none => .raw ""

/-- Build the aggregated output list from every accumulator with a truthy
type, in first-seen order. -/
def buildOutputs (blocks : List (Nat × Block)) : List Content :=
  (blocks.filter (fun ib => !(decide (jsOr ib.2.btype "" = "")))).map
    (fun ib => blockToContent ib.2)

/-- What one callModel invocation produces. -/
structure ModelOut where
  outputs : List Content
  interactionId : String
  usage : Usage
  events : List AgentEvent
  thrown : Option String
deriving Repr, DecidableEq

/-- Function `callModel`: translate the provider stream into semantic events and the
aggregated `\x7boutputs, interactionId, usage\x7d` result; a provider error
raises immediately with no partial-success recovery. -/
def callModel (previousInteractionId : Option String) (pes : List ProviderEvent) : ModelOut :=
  let st0 : MState := { interactionId := previousInteractionId.getD "" }
  let r := runModel st0 pes
  match r.2.2 with
  | some m => { outputs := [], interactionId := r.1.interactionId, usage := r.1.usage,
                events := r.2.1, thrown := some m }
  | none => { outputs := buildOutputs r.1.blocks, interactionId := r.1.interactionId,
              usage := r.1.usage, events := r.2.1, thrown := none }

/-- Number of `text.end` events for a given index in an event list. -/
def countTE (i : Nat) (evs : List AgentEvent) : Nat :=
  evs.countP (fun e => match e with | .textEnd j _ => j == i | _ => false)

-- ============================================================================
-- Theorems: C6
-- ============================================================================

lemma countTE_append (i : Nat) (a b : List AgentEvent) :
    countTE i (a ++ b) = countTE i a + countTE i b :=
  List.countP_append _ _ _

lemma modelStep_te (st : MState) (e : ProviderEvent) (i : Nat) :
    countTE i (modelStep st e).2.1 ≤ 1 ∧
    (i ∈ st.ended → countTE i (modelStep st e).2.1 = 0) ∧
    (i ∈ st.ended → i ∈ (modelStep st e).1.ended) ∧
    (1 ≤ countTE i (modelStep st e).2.1 → i ∈ (modelStep st e).1.ended) := by
  cases e with
  | interStart id => simp [modelStep, countTE]
  | interComplete id usg => simp [modelStep, countTE]
  | contentStart index ctype =>
    by_cases h : ctype = some "text" <;> simp [modelStep, countTE, h]
  | contentDelta index delta =>
    cases delta with
    | none => simp [modelStep, countTE]
    | some d =>
      cases d with
      | text s => simp [modelStep, countTE]
      | thoughtSummary c =>
        cases hc : cleanThought c <;> simp [modelStep, countTE, hc]
      | thoughtSignature sig => simp [modelStep, countTE]
      | functionCall nm fid fargs => simp [modelStep, countTE]
  | contentStop index =>
    cases hg : getBlock st.blocks (index.getD 0) with
    | none => simp [modelStep, hg, countTE]
    | some b =>
      by_cases hb : b.btype = some "text"
      · by_cases hm : (index.getD 0) ∈ st.ended
        · simp [modelStep, hg, hb, hm, countTE]
        · by_cases hii : (index.getD 0) = i
          · subst hii
            simp [modelStep, hg, hb, hm, countTE]
          · simp [modelStep, hg, hb, hm, countTE, hii]
            exact fun hmem => Or.inl hmem
      · simp [modelStep, hg, hb, countTE]
  | errorEv m => simp [modelStep, countTE]

lemma runModel_te_bound (pes : List ProviderEvent) (st : MState) (i : Nat) :
    countTE i (runModel st pes).2.1 ≤ if i ∈ st.ended then 0 else 1 := by
  induction pes generalizing st with
  | nil => simp [runModel, countTE]
  | cons e rest ih =>
    have hs := modelStep_te st e i
    cases herr : (modelStep st e).2.2 with
    | some m =>
      simp only [runModel, herr]
      by_cases hmem : i ∈ st.ended
      · simp [hmem, hs.2.1 hmem]
      · simp only [hmem, if_neg]
        simpa [hmem] using hs.1
    | none =>
      simp only [runModel, herr]
      rw [countTE_append]
      by_cases hmem : i ∈ st.ended
      · have h0 := hs.2.1 hmem
        have hin := hs.2.2.1 hmem
        have hrest := ih (modelStep st e).1
        rw [if_pos hin] at hrest
        simp [hmem, h0, hrest]
      · simp only [hmem, if_neg, ite_false]
        rcases Nat.eq_zero_or_pos (countTE i (modelStep st e).2.1) with h0 | h1
        · have hrest := ih (modelStep st e).1
          have : countTE i (runModel (modelStep st e).1 rest).2.1 ≤ 1 := by
            by_cases hin : i ∈ (modelStep st e).1.ended
            · rw [if_pos hin] at hrest; omega
            · rw [if_neg hin] at hrest; omega
          omega
        · have hin := hs.2.2.2 h1
          have hrest := ih (modelStep st e).1
          rw [if_pos hin] at hrest
          have hone := hs.1
          omega

/-- C6: for the provider delta sequence start(0), delta(0,"ab"),
delta(0,"cd"), stop(0) on a text block, the Model Adapter emits exactly
text.start(0), text.delta(0,"ab"), text.delta(0,"cd"), text.end(0,"abcd")
in that order; a duplicate stop for the same index is ignored (the emitted
events are unchanged); and over every provider stream, text.end is emitted
at most once per index. -/
theorem callModel_text_block_events :
    (callModel none
        [.contentStart (some 0) (some "text"),
         .contentDelta (some 0) (some (.text "ab")),
         .contentDelta (some 0) (some (.text "cd")),
         .contentStop (some 0)]).events =
      [.textStart 0, .textDelta 0 "ab", .textDelta 0 "cd", .textEnd 0 "abcd"] ∧
    (callModel none
        [.contentStart (some 0) (some "text"),
         .contentDelta (some 0) (some (.text "ab")),
         .contentDelta (some 0) (some (.text "cd")),
         .contentStop (some 0),
         .contentStop (some 0)]).events =
      [.textStart 0, .textDelta 0 "ab", .textDelta 0 "cd", .textEnd 0 "abcd"] ∧
    (∀ (prev : Option String) (pes : List ProviderEvent) (i : Nat),
      countTE i (callModel prev pes).events ≤ 1) := by
  refine ⟨by decide, by decide, ?_⟩
  intro prev pes i
  have hb := runModel_te_bound pes { interactionId := prev.getD "" } i
  have hev : (callModel prev pes).events =
      (runModel { interactionId := prev.getD "" } pes).2.1 := by
    cases h : (runModel { interactionId := prev.getD "" } pes).2.2 <;>
      simp [callModel, h]
  rw [hev]
  have : i ∈ ({ interactionId := prev.getD "" } : MState).ended ↔ False := by simp
  by_cases hmem : i ∈ ({ interactionId := prev.getD "" } : MState).ended
  · simp at hmem
  · rw [if_neg hmem] at hb
    exact hb

-- ============================================================================
-- Agent Loop: agentLoop / runLoop (agent-loop.ts, lines 118-246)
-- ============================================================================

/-- What one callModel invocation hands back to the loop
(`\x7boutputs, interactionId, usage\x7d`). -/
structure ModelCallResult where
  outputs : List Content
  interactionId : String
  usage : Usage
deriving Repr, DecidableEq

/-- Overrides a `transformContext` callback may return. -/
structure ContextModifications where
  interactions : Option (List Turn) := none
  tools : Option (List MTool) := none
  systemInstruction : Option String := none

/-- Type `AgentContext`: the loop state. -/
structure AgentContext where
  interactions : List Turn
  previousInteractionId : Option String := none
  usage : Usage := {}
  tools : List MTool := []
  systemInstruction : Option String := none

/-- The payload `runLoop` resolves the stream's result with. -/
structure AgentLoopResult where
  interactions : List Turn
  interactionId : Option String
  usage : Usage
deriving Repr, DecidableEq

/-- Type `AgentLoopConfig`, with the external collaborators abstracted as
oracles: `model k c` is the outcome of the k-th model call on input content
c (`Except.error` models a thrown transport exception), `aborted k` is the
abort-signal check before iteration k, and `getFollowUpMessages`, when
configured, yields the result of its k-th invocation. -/
structure LoopConfig where
  maxIterations : Nat
  previousInteractionId : Option String := none
  tools : List MTool := []
  systemInstruction : Option String := none
  aborted : Nat → Bool := fun _ => false
  transformContext : Option (AgentContext → Option ContextModifications) := none
  model : Nat → List Content → Except String ModelCallResult
  getFollowUpMessages : Option (Nat → Option (List Turn)) := none

/-- Apply the overrides returned by `transformContext` (an empty
system-instruction string is falsy and therefore not applied). -/
def applyTransform (cfg : LoopConfig) (ctx : AgentContext) : AgentContext :=
  match cfg.transformContext with
  | none => ctx
  | some f =>
    match f ctx with
    | none => ctx
    | some m =>
      let c1 := match m.interactions with
                | some xs => { ctx with interactions := xs }
                | none => ctx
      let c2 := match m.tools with
                | some ts => { c1 with tools := ts }
                | none => c1
      match m.systemInstruction with
      | some s => if s = "" then c2 else { c2 with systemInstruction := some s }
      | none => c2

/-- The function-call blocks of a model output
(`outputs.filter((p) => p.type === 'function_call')`). -/
def getToolCalls (outputs : List Content) : List FunctionCallContent :=
  outputs.filterMap (fun c => match c with | .functionCall fc => some fc | _ => none)

/-- Everything one agent-loop run produces: final loop state, the events
pushed to the stream, the number of model calls made, the value the
stream's result was resolved with (none when it never was), and the
rethrown exception message if any. -/
structure LoopOut where
  ctx : AgentContext
  events : List AgentEvent
  modelCalls : Nat
  endResult : Option AgentLoopResult
  thrown : Option String

/-- The while loop of `runLoop`, recursing on the remaining iteration
budget; arguments after the budget: loop state, iteration check counter,
model call counter, follow-up invocation counter, events pushed so far. -/
def runLoopAux (cfg : LoopConfig) :
    Nat → AgentContext → Nat → Nat → Nat → List AgentEvent → LoopOut
  | 0, ctx, _, mc, _, evs =>
    { ctx := ctx, events := evs, modelCalls := mc, endResult := none, thrown := none }
  | remaining + 1, ctx, iteration, mc, fuc, evs =>
    if cfg.aborted iteration then
      { ctx := ctx, events := evs, modelCalls := mc, endResult := none, thrown := none }
    else
      match ctx.interactions.getLast? with
      | none =>
        { ctx := ctx, events := evs, modelCalls := mc, endResult := none, thrown := none }
      | some latestTurn =>
        let ctx1 := applyTransform cfg ctx
        match cfg.model mc latestTurn.content with
        | .error m =>
          { ctx := ctx1, events := evs, modelCalls := mc + 1, endResult := none,
            thrown := some m }
        | .ok mr =>
          let modelTurn : Turn := { role := .model, content := mr.outputs }
          let ctx2 := { ctx1 with previousInteractionId := some mr.interactionId, usage := aggregateUsage ctx1.usage mr.usage, interactions := ctx1.interactions ++ [modelTurn] }
          let toolCalls := getToolCalls mr.outputs
          if toolCalls = [] then
            match cfg.getFollowUpMessages with
            | some f =>
              match f fuc with
              | some msgs =>
                if msgs = [] then
                  { ctx := ctx2, events := evs ++ [.interactionEnd modelTurn],
                    modelCalls := mc + 1, endResult := none, thrown := none }
                else
                  runLoopAux cfg remaining { ctx2 with interactions := ctx2.interactions ++ msgs } (iteration + 1) (mc + 1) (fuc + 1) (evs ++ [.interactionEnd modelTurn])
              | none =>
                { ctx := ctx2, events := evs ++ [.interactionEnd modelTurn],
                  modelCalls := mc + 1, endResult := none, thrown := none }
            | none =>
              { ctx := ctx2, events := evs ++ [.interactionEnd modelTurn],
                modelCalls := mc + 1, endResult := none, thrown := none }
          else
            let er := executeTools toolCalls ctx2.tools
            let toolTurn : Turn := { role := .user, content := er.2.map Content.functionResult }
            let ctx3 := { ctx2 with interactions := ctx2.interactions ++ [toolTurn] }
            runLoopAux cfg remaining ctx3 (iteration + 1) (mc + 1) fuc (evs ++ er.1 ++ [.interactionEnd modelTurn])

/-- Push the terminal `agent.end` and resolve the result with the same
payload, the only path that resolves the stream's result — skipped when an
exception is propagating out of the while loop. -/
def finishLoop (r : LoopOut) : LoopOut :=
  match r.thrown with
  | some _ => r
  | none =>
    { r with
      events := r.events ++
        [.agentEnd r.ctx.interactions r.ctx.previousInteractionId r.ctx.usage]
      endResult := some { interactions := r.ctx.interactions, interactionId := r.ctx.previousInteractionId, usage := r.ctx.usage } }

/-- Function `runLoop`: the while loop followed by the terminal push/resolve. -/
def runLoop (cfg : LoopConfig) (ctx0 : AgentContext) : LoopOut :=
  finishLoop (runLoopAux cfg cfg.maxIterations ctx0 0 0 0 [])

/-- The context `agentLoop` creates from its config, seeded with the
caller's input as the initial user Turn. -/
def seedCtx (input : List Content) (cfg : LoopConfig) : AgentContext where
  interactions := [{ role := .user, content := input }]
  previousInteractionId := cfg.previousInteractionId
  usage := {}
  tools := cfg.tools
  systemInstruction := cfg.systemInstruction

/-- The catch block of `agentLoop`: on an exception, push a terminal
`agent.end` with the hard-coded empty payload and resolve the result with
the same empty payload, then rethrow; otherwise pass through (the
`agent.start` event opens the stream either way). -/
def wrapCatch (r : LoopOut) : LoopOut :=
  match r.thrown with
  | none => { r with events := .agentStart :: r.events }
  | some m =>
    { r with
      events := .agentStart :: r.events ++ [.agentEnd [] (some "") {}]
      endResult := some { interactions := [], interactionId := some "", usage := {} }
      thrown := some m }

/-- Function `agentLoop`: seed the context, run the loop, catch any exception. -/
def agentLoopRun (input : List Content) (cfg : LoopConfig) : LoopOut :=
  wrapCatch (runLoop cfg (seedCtx input cfg))

-- ============================================================================
-- Theorems: C2, C4
-- ============================================================================

lemma runLoopAux_modelCalls_le (cfg : LoopConfig) (remaining : Nat) :
    ∀ ctx iteration mc fuc evs,
    (runLoopAux cfg remaining ctx iteration mc fuc evs).modelCalls ≤ mc + remaining := by
  induction remaining with
  | zero => intro ctx iteration mc fuc evs; simp [runLoopAux]
  | succ n ih =>
    intro ctx iteration mc fuc evs
    simp only [runLoopAux]
    split
    · simp
    · split
      · simp
      · split
        · simp
        · split
          · split
            · split
              · split
                · simp
                · exact le_trans (ih _ _ _ _ _) (by omega)
              · simp
            · simp
          · exact le_trans (ih _ _ _ _ _) (by omega)

lemma finishLoop_modelCalls (r : LoopOut) : (finishLoop r).modelCalls = r.modelCalls := by
  cases h : r.thrown <;> simp [finishLoop, h]

lemma wrapCatch_modelCalls (r : LoopOut) : (wrapCatch r).modelCalls = r.modelCalls := by
  cases h : r.thrown <;> simp [wrapCatch, h]

lemma agentLoopRun_modelCalls_le (input : List Content) (cfg : LoopConfig) :
    (agentLoopRun input cfg).modelCalls ≤ cfg.maxIterations := by
  rw [agentLoopRun, wrapCatch_modelCalls, runLoop, finishLoop_modelCalls]
  simpa using runLoopAux_modelCalls_le cfg cfg.maxIterations (seedCtx input cfg) 0 0 0 []

lemma runLoopAux_one_iteration_tools (input : List Content) (cfg : LoopConfig)
    (mr : ModelCallResult) (h2 : cfg.aborted 0 = false)
    (h3 : cfg.transformContext = none)
    (h4 : cfg.model 0 input = .ok mr)
    (h5 : getToolCalls mr.outputs ≠ []) :
    runLoopAux cfg 1 (seedCtx input cfg) 0 0 0 [] =
      { ctx :=
          { interactions :=
              [{ role := .user, content := input },
               { role := .model, content := mr.outputs },
               { role := .user, content :=
                  (executeTools (getToolCalls mr.outputs) cfg.tools).2.map
                    Content.functionResult }]
            previousInteractionId := some mr.interactionId
            usage := aggregateUsage {} mr.usage
            tools := cfg.tools
            systemInstruction := cfg.systemInstruction }
        events := (executeTools (getToolCalls mr.outputs) cfg.tools).1 ++
          [.interactionEnd { role := .model, content := mr.outputs }]
        modelCalls := 1
        endResult := none
        thrown := none } := by
  show runLoopAux cfg (0 + 1) (seedCtx input cfg) 0 0 0 [] = _
  simp only [runLoopAux, h2, Bool.false_eq_true, if_false, seedCtx,
    List.getLast?_singleton, applyTransform, h3, h4, if_neg h5]
  simp

/-- C2: with maxIterations 1 and a model response containing at least one
function call, exactly one model call occurs, the tool calls are still
executed and their results appended as a new user Turn, and no second model
call happens, so the final history is exactly the three Turns seed / model /
tool-result; the stop is silent (no error); and in general the number of
model calls of any run never exceeds the iteration cap, regardless of
pending tool calls. -/
theorem loop_iteration_cap (input : List Content) (cfg : LoopConfig) (mr : ModelCallResult)
    (h1 : cfg.maxIterations = 1) (h2 : cfg.aborted 0 = false)
    (h3 : cfg.transformContext = none)
    (h4 : cfg.model 0 input = .ok mr)
    (h5 : getToolCalls mr.outputs ≠ []) :
    (agentLoopRun input cfg).modelCalls = 1 ∧
    (agentLoopRun input cfg).thrown = none ∧
    (agentLoopRun input cfg).ctx.interactions =
      [{ role := .user, content := input },
       { role := .model, content := mr.outputs },
       { role := .user, content :=
          (executeTools (getToolCalls mr.outputs) cfg.tools).2.map Content.functionResult }] ∧
    (∀ (input2 : List Content) (cfg2 : LoopConfig),
      (agentLoopRun input2 cfg2).modelCalls ≤ cfg2.maxIterations) := by
  have hrun := runLoopAux_one_iteration_tools input cfg mr h2 h3 h4 h5
  have hout : agentLoopRun input cfg =
      wrapCatch (finishLoop (runLoopAux cfg 1 (seedCtx input cfg) 0 0 0 [])) := by
    rw [agentLoopRun, runLoop, h1]
  rw [hout, hrun]
  refine ⟨?_, ?_, ?_, fun input2 cfg2 => agentLoopRun_modelCalls_le input2 cfg2⟩
  · simp [finishLoop, wrapCatch]
  · simp [finishLoop, wrapCatch]
  · simp [finishLoop, wrapCatch]

/-- Model result for the C2 witness: one function call requesting `echo`. -/
def c2mr : ModelCallResult where
  outputs := [Content.functionCall { id := some "c1", name := some "echo", arguments := some [] }]
  interactionId := "i1"
  usage := { total_tokens := some 10 }

/-- Loop configuration for the C2 witness. -/
def c2cfg : LoopConfig where
  maxIterations := 1
  tools := [okTool]
  model := fun _ _ => .ok c2mr

theorem loop_iteration_cap_witness :
    (agentLoopRun [Content.text "go"] c2cfg).modelCalls = 1 ∧
    (agentLoopRun [Content.text "go"] c2cfg).thrown = none ∧
    (agentLoopRun [Content.text "go"] c2cfg).ctx.interactions.length = 3 := by
  have h := loop_iteration_cap [Content.text "go"] c2cfg c2mr rfl rfl rfl rfl (by decide)
  refine ⟨h.1, h.2.1, ?_⟩
  rw [h.2.2.1]
  rfl

/-- The loop configuration of the C4 counterexample and witness: the model
transport throws on every call. -/
def c4cfg : LoopConfig where
  maxIterations := 10
  model := fun _ _ => .error "boom"

/-- C4 counterexample: a transport exception on the very first model call
of a seeded run.  The loop does push a terminal agent.end and resolve the
result before rethrowing, but the terminal pair carries the hard-coded
EMPTY payload — empty interactions, empty id, empty usage — not the partial
state (here the non-empty seeded history) existing at that point. -/
theorem agentLoop_error_payload_is_empty :
    (agentLoopRun [Content.text "hi"] c4cfg).thrown = some "boom" ∧
    (agentLoopRun [Content.text "hi"] c4cfg).events =
      [.agentStart, .agentEnd [] (some "") {}] ∧
    (agentLoopRun [Content.text "hi"] c4cfg).ctx.interactions =
      [{ role := .user, content := [Content.text "hi"] }] ∧
    [({ role := .user, content := [Content.text "hi"] } : Turn)] ≠ ([] : List Turn) := by
  refine ⟨by decide, by decide, by decide, by decide⟩

/-- C4 amended: if an exception is thrown during any Agent Loop iteration,
the loop still pushes a terminal agent.end event and resolves the stream's
result before the exception is rethrown — so a consumer can never hang —
but the terminal pair carries the empty payload (empty interactions, empty
interaction id, empty usage), not the partial state existing at that
point. -/
theorem agentLoop_error_still_terminates_stream (input : List Content) (cfg : LoopConfig)
    (m : String) (h : (agentLoopRun input cfg).thrown = some m) :
    (agentLoopRun input cfg).events.getLast? = some (.agentEnd [] (some "") {}) ∧
    (agentLoopRun input cfg).endResult =
      some { interactions := [], interactionId := some "", usage := {} } := by
  rw [agentLoopRun] at h ⊢
  cases hr : (runLoop cfg (seedCtx input cfg)).thrown with
  | none => rw [wrapCatch, hr] at h; simp at h
  | some m2 =>
    rw [wrapCatch, hr]
    refine ⟨?_, rfl⟩
    rw [show (AgentEvent.agentStart :: (runLoop cfg (seedCtx input cfg)).events ++
        [AgentEvent.agentEnd [] (some "") {}]) =
        ((AgentEvent.agentStart :: (runLoop cfg (seedCtx input cfg)).events) ++
        [AgentEvent.agentEnd [] (some "") {}]) from rfl]
    exact List.getLast?_concat _

theorem agentLoop_error_still_terminates_stream_witness :
    (agentLoopRun [Content.text "hi"] c4cfg).events.getLast? =
      some (.agentEnd [] (some "") {}) ∧
    (agentLoopRun [Content.text "hi"] c4cfg).endResult =
      some { interactions := [], interactionId := some "", usage := {} } := by
  exact agentLoop_error_still_terminates_stream [Content.text "hi"] c4cfg "boom" (by decide)

-- ============================================================================
-- Session Orchestrator: AgentSession._streamInternal (packages/agent/src/session.ts)
-- ============================================================================

/-- Type `OnAgentStartResult`: overrides the start-lifecycle hook may return. -/
structure StartHookResult where
  tools : Option (List MTool) := none
  systemInstruction : Option String := none
  input : Option (List Content) := none

/-- A session as `_streamInternal` observes it, with the Agent Loop
abstracted as an oracle: `loopRun k` is the awaited result of the k-th
`agentLoop` run, `drains k` says whether that run's follow-up provider
closure drained the queue, and `endHook k` is the injected input (if any)
returned by the k-th `onAgentEnd` emission. -/
structure SessionCfg where
  queue : List Turn
  maxInjectionLoops : Nat := 3
  hasStarted : Bool := false
  hasOnAgentStart : Bool := false
  startHook : StartHookResult := {}
  hasOnAgentEnd : Bool := false
  endHook : Nat → Option String := fun _ => none
  loopRun : Nat → AgentLoopResult
  drains : Nat → Bool := fun _ => true

/-- Observable outcome of one `stream()` call: the seed content of each
Agent Loop run in order, the value the generator returns, the number of
start/end lifecycle emissions, the session usage after each run, the final
injection counter, and the final queue. -/
structure StreamOutcome where
  seeds : List (List Content)
  answer : Option AgentLoopResult
  startEmits : Nat
  endEmits : Nat
  usageTrace : List Usage
  injections : Nat
  queueFinal : List Turn
deriving Repr, DecidableEq

/-- The `while (true)` injection loop of `_streamInternal`: run the Agent
Loop on the once-dequeued first Turn's content, overwrite the session usage
with the run's result usage, then (under the injection cap) emit the
end-lifecycle hook; injected input is enqueued as a user Turn and the cycle
repeats, otherwise streaming stops with the run's result.  Arguments after
the fuel: run index, injection counter, end-emission counter, queue, seeds
so far, usage trace so far. -/
def sessionLoop (cfg : SessionCfg) (firstContent : List Content) :
    Nat → Nat → Nat → Nat → List Turn → List (List Content) → List Usage → StreamOutcome
  | 0, _, inj, ee, queue, seeds, utrace =>
    { seeds := seeds, answer := none, startEmits := 0, endEmits := ee,
      usageTrace := utrace, injections := inj, queueFinal := queue }
  | fuel + 1, runIdx, inj, ee, queue, seeds, utrace =>
    let res := cfg.loopRun runIdx
    let queue1 := if cfg.drains runIdx then [] else queue
    let seeds1 := seeds ++ [firstContent]
    let utrace1 := utrace ++ [res.usage]
    if cfg.hasOnAgentEnd ∧ inj < cfg.maxInjectionLoops then
      match cfg.endHook ee with
      | some s =>
        sessionLoop cfg firstContent fuel (runIdx + 1) (inj + 1) (ee + 1)
          (queue1 ++ [{ role := .user, content := [Content.text s] }]) seeds1 utrace1
      | none =>
        { seeds := seeds1, answer := some res, startEmits := 0, endEmits := ee + 1,
          usageTrace := utrace1, injections := inj, queueFinal := queue1 }
    else
      { seeds := seeds1, answer := some res, startEmits := 0, endEmits := ee,
        usageTrace := utrace1, injections := inj, queueFinal := queue1 }

/-- Method `_streamInternal`: an empty queue returns undefined immediately — before
the start-lifecycle block, so no hook runs and no loop starts; otherwise the
first Turn is dequeued ONCE, the start hook (first call only) may enqueue
injected input, and the injection loop runs.  The fuel maxInjectionLoops+1
covers every reachable repetition. -/
def streamInternal (cfg : SessionCfg) : StreamOutcome :=
  match cfg.queue with
  | [] =>
    { seeds := [], answer := none, startEmits := 0, endEmits := 0, usageTrace := [],
      injections := 0, queueFinal := [] }
  | firstTurn :: rest =>
    let started := !cfg.hasStarted && cfg.hasOnAgentStart
    let queue1 :=
      if started then
        rest ++ (match cfg.startHook.input with
                 | some c => [{ role := Role.user, content := c }]
                 | none => [])
      else rest
    let o := sessionLoop cfg firstTurn.content (cfg.maxInjectionLoops + 1) 0 0 0 queue1 [] []
    { o with startEmits := if started then 1 else 0 }

-- ============================================================================
-- Theorems: C7, C9, C10
-- ============================================================================

lemma sessionLoop_seed_invariant (cfg : SessionCfg) (c : List Content) :
    ∀ (fuel runIdx inj ee : Nat) (queue : List Turn) (seeds : List (List Content))
      (utrace : List Usage),
    inj ≤ cfg.maxInjectionLoops →
    cfg.maxInjectionLoops + 1 ≤ inj + fuel →
    (∀ s ∈ seeds, s = c) →
    (∀ s ∈ (sessionLoop cfg c fuel runIdx inj ee queue seeds utrace).seeds, s = c) ∧
    (sessionLoop cfg c fuel runIdx inj ee queue seeds utrace).seeds.length + inj =
      seeds.length + (sessionLoop cfg c fuel runIdx inj ee queue seeds utrace).injections + 1 ∧
    inj ≤ (sessionLoop cfg c fuel runIdx inj ee queue seeds utrace).injections ∧
    (sessionLoop cfg c fuel runIdx inj ee queue seeds utrace).injections ≤
      cfg.maxInjectionLoops := by
  intro fuel
  induction fuel with
  | zero =>
    intro runIdx inj ee queue seeds utrace hle hfuel hseeds
    omega
  | succ n ih =>
    intro runIdx inj ee queue seeds utrace hle hfuel hseeds
    have hseeds1 : ∀ s ∈ seeds ++ [c], s = c := by
      intro s hs
      rcases List.mem_append.mp hs with h | h
      · exact hseeds s h
      · simpa using h
    simp only [sessionLoop]
    split
    · rename_i hcond
      obtain ⟨hhook, hlt⟩ := hcond
      cases he : cfg.endHook ee with
      | some s =>
        dsimp only
        have hr := ih (runIdx + 1) (inj + 1) (ee + 1)
          ((if cfg.drains runIdx then [] else queue) ++
            [{ role := .user, content := [Content.text s] }])
          (seeds ++ [c]) (utrace ++ [(cfg.loopRun runIdx).usage])
          (by omega) (by omega) hseeds1
        obtain ⟨ha, hb, hc, hd⟩ := hr
        refine ⟨ha, ?_, by omega, hd⟩
        simp only [List.length_append, List.length_singleton] at hb ⊢
        omega
      | none =>
        dsimp only
        refine ⟨hseeds1, ?_, le_refl _, hle⟩
        simp only [List.length_append, List.length_singleton]
        omega
    · refine ⟨hseeds1, ?_, le_refl _, hle⟩
      simp only [List.length_append, List.length_singleton]
      omega

/-- C7 counterexample session: one queued Turn "hello"; the end-lifecycle
hook injects "inject" once, then stops. -/
def c7cfg : SessionCfg where
  queue := [{ role := .user, content := [Content.text "hello"] }]
  maxInjectionLoops := 3
  hasStarted := true
  hasOnAgentEnd := true
  endHook := fun k => if k = 0 then some "inject" else none
  loopRun := fun _ => { interactions := [], interactionId := some "i", usage := {} }

/-- C7 counterexample: after the end-lifecycle hook injects input, the
injection loop repeats, and at that repetition the oldest queued Turn is
the injected Turn with content "inject" — but the second Agent Loop run is
seeded with the content of the original first Turn "hello" again, not with
a freshly dequeued Turn (the injected Turn is instead left to the follow-up
provider). -/
theorem session_repetition_reuses_first_seed :
    (streamInternal c7cfg).seeds =
      [[Content.text "hello"], [Content.text "hello"]] ∧
    (streamInternal c7cfg).injections = 1 ∧
    ([Content.text "hello"] : List Content) ≠ [Content.text "inject"] := by
  refine ⟨by decide, by decide, by decide⟩

/-- C7 amended: stream() dequeues the first queued Turn exactly once; every
repetition of the injection loop — entered whenever the end-lifecycle hook
(run while the injection counter is below its cap) requests injected input,
which is enqueued as a user Turn and the counter incremented — re-runs the
Agent Loop seeded with that same first Turn's content (follow-up input
reaches the loop only through the follow-up provider draining the queue);
otherwise streaming stops.  Hence the seeds of all runs equal the first
dequeued Turn's content, there is exactly one more run than injections, and
the counter stays at or below the cap. -/
theorem session_injection_loop_spec (cfg : SessionCfg) (t : Turn) (rest : List Turn)
    (hq : cfg.queue = t :: rest) :
    (∀ s ∈ (streamInternal cfg).seeds, s = t.content) ∧
    (streamInternal cfg).seeds.length = (streamInternal cfg).injections + 1 ∧
    (streamInternal cfg).injections ≤ cfg.maxInjectionLoops := by
  have hmain := sessionLoop_seed_invariant cfg t.content (cfg.maxInjectionLoops + 1) 0 0 0
    (if (!cfg.hasStarted && cfg.hasOnAgentStart) = true then
       rest ++ (match cfg.startHook.input with
                | some c => [{ role := Role.user, content := c }]
                | none => [])
     else rest)
    [] [] (by omega) (by omega) (by simp)
  have hout : streamInternal cfg =
      { sessionLoop cfg t.content (cfg.maxInjectionLoops + 1) 0 0 0
          (if (!cfg.hasStarted && cfg.hasOnAgentStart) = true then
             rest ++ (match cfg.startHook.input with
                      | some c => [{ role := Role.user, content := c }]
                      | none => [])
           else rest) [] [] with
        startEmits := if (!cfg.hasStarted && cfg.hasOnAgentStart) = true then 1 else 0 } := by
    simp only [streamInternal, hq]
  rw [hout]
  refine ⟨fun s hs => hmain.1 s hs, ?_, hmain.2.2.2⟩
  have := hmain.2.1
  simpa using this

theorem session_injection_loop_spec_witness :
    (∀ s ∈ (streamInternal c7cfg).seeds, s = [Content.text "hello"]) ∧
    (streamInternal c7cfg).seeds.length = (streamInternal c7cfg).injections + 1 := by
  have h := session_injection_loop_spec c7cfg
    { role := .user, content := [Content.text "hello"] } [] rfl
  exact ⟨h.1, h.2.1⟩

/-- C10: calling stream() on a session whose message queue is empty yields
no loop run, returns undefined, and runs no lifecycle hook — including
onAgentStart, even on a first call (any `hasStarted`, any registered
hooks). -/
theorem stream_empty_queue_noop (cfg : SessionCfg) (h : cfg.queue = []) :
    streamInternal cfg =
      { seeds := [], answer := none, startEmits := 0, endEmits := 0, usageTrace := [],
        injections := 0, queueFinal := [] } := by
  simp only [streamInternal, h]

/-- An empty-queue session on its first call with hooks registered, for the
C10 witness. -/
def c10cfg : SessionCfg where
  queue := []
  hasStarted := false
  hasOnAgentStart := true
  hasOnAgentEnd := true
  endHook := fun _ => some "x"
  loopRun := fun _ => { interactions := [], interactionId := none, usage := {} }

theorem stream_empty_queue_noop_witness :
    streamInternal c10cfg =
      { seeds := [], answer := none, startEmits := 0, endEmits := 0, usageTrace := [],
        injections := 0, queueFinal := [] } :=
  stream_empty_queue_noop c10cfg rfl

lemma aggregateField_getD (a b : Option Nat) :
    (aggregateField a b).getD 0 = a.getD 0 + b.getD 0 := by
  match b with
  | none => simp [aggregateField]
  | some 0 => simp [aggregateField]
  | some (n + 1) => simp [aggregateField]

/-- Usage values of the C9 counterexample: 10 then 5 total tokens. -/
def u10 : Usage := { total_tokens := some 10 }

/-- Second-run usage of the C9 counterexample. -/
def u5 : Usage := { total_tokens := some 5 }

/-- C9 counterexample session: each repetition's Agent Loop result is the
real loop embedding run on a model whose usage is 10 tokens for the first
run and 5 for the second; the end hook injects once so two runs happen. -/
def c9cfg : SessionCfg where
  queue := [{ role := .user, content := [Content.text "hello"] }]
  maxInjectionLoops := 3
  hasStarted := true
  hasOnAgentEnd := true
  endHook := fun k => if k = 0 then some "again" else none
  loopRun := fun k =>
    (agentLoopRun [Content.text "hello"]
      { maxIterations := 5, model := fun _ _ => .ok { outputs := [Content.text "ok"], interactionId := "i1", usage := if k = 0 then u10 else u5 } }).endResult.getD
      { interactions := [], interactionId := none, usage := {} }

/-- C9 counterexample: across the session's successive loop runs the usage
is overwritten, not aggregated — after a first run totalling 10 tokens and
a hook-injected second run totalling 5, the session's usage is 5, strictly
below its value after the first run, so the per-field counters are NOT
monotonically non-decreasing across the session's successive loop runs. -/
theorem session_usage_overwritten_across_runs :
    (streamInternal c9cfg).usageTrace = [u10, u5] ∧
    ((streamInternal c9cfg).usageTrace.getD 1 {}).total_tokens.getD 0 <
      ((streamInternal c9cfg).usageTrace.getD 0 {}).total_tokens.getD 0 := by
  refine ⟨by decide, by decide⟩

/-- C9 amended: within one Agent Loop run, usage counters are combined only
by addition and never overwritten, with missing fields treated as zero —
each per-field counter after aggregation equals the sum of the target and
source values (absent read as 0), hence is monotonically non-decreasing
across the run's iterations, and aggregating 10 then 15 total tokens gives
25; the session, however, overwrites its usage with each run's own result,
so monotonicity does NOT extend across successive loop runs (see the
counterexample). -/
theorem usage_additive_spec :
    aggregateUsage (aggregateUsage {} { total_tokens := some 10 })
        { total_tokens := some 15 } =
      { total_tokens := some 25 } ∧
    (∀ t s : Usage,
      (aggregateUsage t s).total_input_tokens.getD 0 =
        t.total_input_tokens.getD 0 + s.total_input_tokens.getD 0 ∧
      (aggregateUsage t s).total_output_tokens.getD 0 =
        t.total_output_tokens.getD 0 + s.total_output_tokens.getD 0 ∧
      (aggregateUsage t s).total_tokens.getD 0 =
        t.total_tokens.getD 0 + s.total_tokens.getD 0 ∧
      (aggregateUsage t s).total_thought_tokens.getD 0 =
        t.total_thought_tokens.getD 0 + s.total_thought_tokens.getD 0) ∧
    (∀ t s : Usage,
      t.total_input_tokens.getD 0 ≤ (aggregateUsage t s).total_input_tokens.getD 0 ∧
      t.total_output_tokens.getD 0 ≤ (aggregateUsage t s).total_output_tokens.getD 0 ∧
      t.total_tokens.getD 0 ≤ (aggregateUsage t s).total_tokens.getD 0 ∧
      t.total_thought_tokens.getD 0 ≤ (aggregateUsage t s).total_thought_tokens.getD 0) := by
  refine ⟨by decide, ?_, ?_⟩
  · intro t s
    exact ⟨aggregateField_getD _ _, aggregateField_getD _ _, aggregateField_getD _ _,
      aggregateField_getD _ _⟩
  · intro t s
    have h1 := aggregateField_getD t.total_input_tokens s.total_input_tokens
    have h2 := aggregateField_getD t.total_output_tokens s.total_output_tokens
    have h3 := aggregateField_getD t.total_tokens s.total_tokens
    have h4 := aggregateField_getD t.total_thought_tokens s.total_thought_tokens
    refine ⟨?_, ?_, ?_, ?_⟩
    · show t.total_input_tokens.getD 0 ≤
        (aggregateField t.total_input_tokens s.total_input_tokens).getD 0
      omega
    · show t.total_output_tokens.getD 0 ≤
        (aggregateField t.total_output_tokens s.total_output_tokens).getD 0
      omega
    · show t.total_tokens.getD 0 ≤
        (aggregateField t.total_tokens s.total_tokens).getD 0
      omega
    · show t.total_thought_tokens.getD 0 ≤
        (aggregateField t.total_thought_tokens s.total_thought_tokens).getD 0
      omega
